import Mathlib

/-!
Verification of the query-decomposition / fan-out-answer / recombination
workflow of the notebook `15-FastAPI-API.ipynb`.

The Python code is shallowly embedded:

* the `query_analyzer` parsing step `(lambda x: x.split("\n"))` together
  with the fallback cell `if sub_questions == [""]: sub_questions =
  [original_question]` becomes `decompose`;
* the `rag_results` loop (with its two-attempt retry over `rag_agent` and
  the `rag_results.append(sub_response)` line placed after the loop, as in
  the source) becomes `rag_results_code`; the inner retry loop becomes
  `retryAnswer`;
* `format_qa_pairs` becomes `format_qa_pairs`, with Python `str.strip()`
  embedded as `pyStrip`.

The external `rag_agent` is modelled as an oracle giving, per sub-question
and per attempt index, either a successful answer (`some a`) or a raised
exception (`none`).
-/

/-- Python `str.split` with separator `"\n"`, on the character list: every
newline is a boundary, empty fields are kept, and the empty input yields
one empty field. -/
def splitNlChars : List Char → List (List Char)
  | [] => [[]]
  | c :: cs =>
    if c = '\x0a' then
      [] :: splitNlChars cs
    else
      match splitNlChars cs with
      | [] => [[c]]
      | l :: ls => (c :: l) :: ls

/-- The `(lambda x: x.split("\n"))` stage of `query_analyzer`. -/
def pySplitNl (s : String) : List String :=
  (splitNlChars s.data).map fun l => ⟨l⟩

/-- Joining character lists with a separator; used to state the
split/join round trip. -/
def joinSepChars (sep : List Char) : List (List Char) → List Char
  | [] => []
  | [l] => l
  | l :: ls => l ++ sep ++ joinSepChars sep ls

/-- Joining strings with a separator string. -/
def joinSep (sep : String) : List String → String
  | [] => ""
  | [s] => s
  | s :: ss => s ++ sep ++ joinSep sep ss

/-- The Decomposer: `query_analyzer` parses the raw text produced by the
generation capability by splitting on newlines, and the following cell
replaces the result by `[original_question]` when it equals `[""]`.
`raw` is the raw text returned by the capability. -/
def decompose (question : String) (raw : String) : List String :=
  let subs := pySplitNl raw
  if subs = [""] then [question] else subs

/-- The inner `for k in range(2)` retry loop of the `rag_results` cell, for
one sub-question: `att k` is the outcome of attempt `k` of the answer
capability (`some a` an answer, `none` a raised exception). Attempt 0 is
tried first; on success the loop breaks with its value, on failure
`sub_response` is set to the sentinel and attempt 1 runs. -/
def retryAnswer (att : Nat → Option String) : String :=
  match att 0 with
  | some v => v
  | none =>
    match att 1 with
    | some v => v
    | none => "No response found."

/-- The `rag_results` cell exactly as written in the source: the loop
overwrites `sub_response` for each sub-question in turn, and the single
`rag_results.append(sub_response)` sits AFTER the loop. The loop-carried
value models the Python variable `sub_response` (`none` = never assigned);
an empty input leaves it unassigned, so the final `append` raises a
`NameError`, modelled as `none`. -/
def rag_results_code (agent : String → Nat → Option String)
    (sub_questions : List String) : Option (List String) :=
  match sub_questions.foldl (fun _ q => some (retryAnswer (agent q))) none with
  | none => none
  | some r => some ([] ++ [r])

/-- The whitespace characters removed by Python `str.strip()` (the ASCII
ones, which are the only ones the workflow can produce). -/
def isPyWs (c : Char) : Bool :=
  c = ' ' || c = '\x09' || c = '\x0a' || c = '\x0d' || c = '\x0b' || c = '\x0c'

/-- Python `str.strip()` on the character list: drop whitespace from both
ends. -/
def pyStripChars (cs : List Char) : List Char :=
  ((cs.dropWhile isPyWs).reverse.dropWhile isPyWs).reverse

/-- Python `str.strip()`. -/
def pyStrip (s : String) : String :=
  ⟨pyStripChars s.data⟩

/-- The f-string body of one `format_qa_pairs` iteration, without its
trailing blank-line separator. -/
def qaBlock (i : Nat) (qa : String × String) : String :=
  "Question " ++ toString i ++ ": " ++ qa.1 ++ "\x0a" ++
    "Answer " ++ toString i ++ ": " ++ qa.2

/-- The accumulation loop of `format_qa_pairs`: for each zipped pair, in
order, append the f-string `f"Question {i}: {q}\nAnswer {i}: {a}\n\n"`,
with `i` counting from the given start index. -/
def formatQaAux (i : Nat) : List (String × String) → String
  | [] => ""
  | p :: rest => (qaBlock i p ++ "\x0a\x0a") ++ formatQaAux (i + 1) rest

/-- `format_qa_pairs(questions, answers)` from the source: zip the two
sequences, accumulate the numbered blocks starting at 1, and `strip()` the
result. -/
def format_qa_pairs (questions answers : List String) : String :=
  pyStrip (formatQaAux 1 (questions.zip answers))

/-- The per-pair blocks, numbered from 1 in input order, used to state
what the formatted context looks like. -/
def qaLines (questions answers : List String) : List String :=
  (List.enumFrom 1 (questions.zip answers)).map fun ip => qaBlock ip.1 ip.2

/-! ### Lemmas about the newline split -/

theorem splitNlChars_ne_nil (cs : List Char) : splitNlChars cs ≠ [] := by
  cases cs with
  | nil => simp [splitNlChars]
  | cons c cs =>
    simp only [splitNlChars]
    split
    · simp
    · split
      · simp
      · simp

theorem splitNlChars_eq_single_nil (cs : List Char) :
    splitNlChars cs = [[]] ↔ cs = [] := by
  constructor
  · intro h
    cases cs with
    | nil => rfl
    | cons c cs =>
      simp only [splitNlChars] at h
      split at h
      · have := splitNlChars_ne_nil cs
        simp at h
        exact absurd h this
      · split at h
        · simp at h
        · simp at h
  · intro h
    subst h
    rfl

theorem joinSepChars_splitNlChars (cs : List Char) :
    joinSepChars ['\x0a'] (splitNlChars cs) = cs := by
  induction cs with
  | nil => rfl
  | cons c cs ih =>
    simp only [splitNlChars]
    split
    · rename_i hc
      subst hc
      rcases h : splitNlChars cs with _ | ⟨l, ls⟩
      · exact absurd h (splitNlChars_ne_nil cs)
      · rw [h] at ih
        simp only [joinSepChars]
        simpa using ih
    · rcases h : splitNlChars cs with _ | ⟨l, ls⟩
      · exact absurd h (splitNlChars_ne_nil cs)
      · rw [h] at ih
        cases ls with
        | nil => simpa [joinSepChars] using ih
        | cons l2 ls2 => simpa [joinSepChars] using ih

theorem data_mk (l : List Char) : (⟨l⟩ : String).data = l := rfl

theorem string_ext {s t : String} (h : s.data = t.data) : s = t := by
  cases s; cases t; simp_all

theorem joinSep_map_mk (sep : List Char) (lls : List (List Char)) :
    joinSep ⟨sep⟩ (lls.map fun l => (⟨l⟩ : String)) = ⟨joinSepChars sep lls⟩ := by
  induction lls with
  | nil => rfl
  | cons l ls ih =>
    cases ls with
    | nil => rfl
    | cons l2 ls2 =>
      simp only [List.map_cons, joinSep, joinSepChars]
      simp only [List.map_cons] at ih
      rw [ih]
      rfl

theorem pySplitNl_ne_nil (s : String) : pySplitNl s ≠ [] := by
  simp [pySplitNl, splitNlChars_ne_nil]

theorem pySplitNl_eq_single_empty (s : String) :
    pySplitNl s = [""] ↔ s = "" := by
  constructor
  · intro h
    have hl : (splitNlChars s.data).map (fun l => (⟨l⟩ : String)) = [⟨[]⟩] := h
    have : splitNlChars s.data = [[]] := by
      rcases hm : splitNlChars s.data with _ | ⟨l, ls⟩
      · exact absurd hm (splitNlChars_ne_nil s.data)
      · rw [hm] at hl
        simp only [List.map_cons] at hl
        obtain ⟨h1, h2⟩ := List.cons_eq_cons.mp hl
        have hls : ls = [] := List.map_eq_nil_iff.mp h2
        have : l = [] := congrArg String.data h1
        simp [this, hls]
    exact string_ext ((splitNlChars_eq_single_nil s.data).mp this)
  · intro h
    subst h
    rfl

theorem joinSep_pySplitNl (s : String) :
    joinSep "\x0a" (pySplitNl s) = s := by
  have : joinSep ⟨['\x0a']⟩ ((splitNlChars s.data).map fun l => (⟨l⟩ : String)) =
      ⟨joinSepChars ['\x0a'] (splitNlChars s.data)⟩ :=
    joinSep_map_mk ['\x0a'] (splitNlChars s.data)
  rw [joinSepChars_splitNlChars] at this
  exact this.trans (string_ext rfl)

/-! ### Lemmas about `pyStrip` and `format_qa_pairs` -/

theorem head?_dropWhile_false (p : Char → Bool) (l : List Char) (c : Char)
    (h : (l.dropWhile p).head? = some c) : p c = false := by
  induction l with
  | nil => simp [List.dropWhile] at h
  | cons x xs ih =>
    rw [List.dropWhile_cons] at h
    split at h
    · exact ih h
    · rename_i hx
      simp only [List.head?_cons, Option.some.injEq] at h
      subst h
      simpa using hx

theorem getLast?_pyStripChars (cs : List Char) (c : Char)
    (h : (pyStripChars cs).getLast? = some c) : isPyWs c = false := by
  unfold pyStripChars at h
  rw [List.getLast?_reverse] at h
  exact head?_dropWhile_false isPyWs _ c h

theorem pyStripChars_append_nlnl (xs : List Char) :
    pyStripChars (xs ++ ['\x0a', '\x0a']) = pyStripChars xs := by
  unfold pyStripChars
  rw [List.dropWhile_append]
  rcases hd : (xs.dropWhile isPyWs).isEmpty with _ | _
  · simp only [hd, if_neg Bool.false_ne_true]
    rw [List.reverse_append]
    have : (['\x0a', '\x0a'] : List Char).reverse = ['\x0a', '\x0a'] := rfl
    rw [this]
    have h1 : isPyWs '\x0a' = true := by decide
    simp [List.dropWhile_cons, h1]
  · simp only [hd, if_pos rfl]
    have : (['\x0a', '\x0a'] : List Char).dropWhile isPyWs = [] := by decide
    rw [this]
    rw [List.isEmpty_iff.mp hd]
    rfl

theorem pyStrip_append_nlnl (s : String) :
    pyStrip (s ++ "\x0a\x0a") = pyStrip s := by
  have hd : (s ++ "\x0a\x0a").data = s.data ++ ['\x0a', '\x0a'] :=
    String.data_append s "\x0a\x0a"
  unfold pyStrip
  rw [hd, pyStripChars_append_nlnl]

theorem formatQaAux_eq_joinSep (ps : List (String × String)) (i : Nat) (h : ps ≠ []) :
    formatQaAux i ps =
      joinSep "\x0a\x0a" ((List.enumFrom i ps).map fun ip => qaBlock ip.1 ip.2) ++
        "\x0a\x0a" := by
  induction ps generalizing i with
  | nil => exact absurd rfl h
  | cons p rest ih =>
    cases rest with
    | nil =>
      simp only [formatQaAux, List.enumFrom, List.map_cons, List.map_nil, joinSep]
      rw [String.append_empty]
    | cons p2 rest2 =>
      have hne : (p2 :: rest2 : List (String × String)) ≠ [] := by simp
      have hstep : formatQaAux i (p :: p2 :: rest2) =
          (qaBlock i p ++ "\x0a\x0a") ++ formatQaAux (i + 1) (p2 :: rest2) := rfl
      rw [hstep, ih (i + 1) hne]
      simp only [List.enumFrom, List.map_cons, joinSep]
      simp [String.append_assoc]

theorem format_qa_pairs_eq_joinSep (questions answers : List String) :
    format_qa_pairs questions answers =
      pyStrip (joinSep "\x0a\x0a" (qaLines questions answers)) := by
  unfold format_qa_pairs qaLines
  rcases hz : questions.zip answers with _ | ⟨p, ps⟩
  · rfl
  · have hne : (p :: ps : List (String × String)) ≠ [] := by simp
    rw [formatQaAux_eq_joinSep (p :: ps) 1 hne, pyStrip_append_nlnl]

theorem format_qa_pairs_no_trailing_ws (questions answers : List String) (c : Char)
    (h : (format_qa_pairs questions answers).data.getLast? = some c) :
    isPyWs c = false := by
  unfold format_qa_pairs pyStrip at h
  exact getLast?_pyStripChars _ c h

theorem qaLines_length (questions answers : List String) :
    (qaLines questions answers).length = min questions.length answers.length := by
  unfold qaLines
  simp [List.enumFrom_length, List.length_zip]

/-! ### Concrete answer-capability oracles used as failing inputs -/

/-- A capability that answers every sub-question on the first attempt. -/
def agentEcho : String → Nat → Option String :=
  fun q _ => some ("ans " ++ q)

/-- A capability that raises on every attempt for sub-question `q1` and
answers `q2` immediately. -/
def agentAlwaysFailsQ1 : String → Nat → Option String :=
  fun q _ => if q = "q1" then none else some "a2"

/-- A capability that raises on the first attempt for `q1`, answers `a1`
on the second attempt, and answers `q2` immediately. -/
def agentRetryQ1 : String → Nat → Option String :=
  fun q k => if q = "q1" then (if k = 0 then none else some "a1") else some "a2"

/-- The two bank sub-questions of the round-trip scenario, answered on the
first attempt. -/
def agentBanks : String → Nat → Option String :=
  fun q _ => some ("ans: " ++ q)

/-! ### Claim theorems -/

/-- Claim C1: the source claims the fan-out loop produces one answer per
sub-question, in order. Evaluating the loop as written at two
sub-questions that both succeed immediately shows the output holds only
the single last answer, because `rag_results.append(sub_response)` sits
after the loop: the output has length 1, not 2. -/
theorem rag_results_code_keeps_only_last :
    rag_results_code agentEcho ["q1", "q2"] = some ["ans q2"] := by decide

/-- Claim C2: the source claims that a sub-question whose attempts all
fail contributes the sentinel to the output sequence while processing
continues. The retry loop does compute the sentinel for `q1`, and no
exception propagates, but the loop as written then drops it: the output
for `["q1", "q2"]` is `["a2"]`, with no sentinel entry for `q1`. -/
theorem rag_results_code_drops_sentinel :
    retryAnswer (agentAlwaysFailsQ1 "q1") = "No response found." ∧
    rag_results_code agentAlwaysFailsQ1 ["q1", "q2"] = some ["a2"] := by decide

/-- Claim C3: the source claims that a sub-question failing once and
succeeding on the second attempt gets the second attempt result in the
output. The retry loop does compute that result (`a1`) for `q1`, but the
loop as written drops it from the output: only the last answer `a2`
appears. -/
theorem rag_results_code_drops_retried_answer :
    retryAnswer (agentRetryQ1 "q1") = "a1" ∧
    rag_results_code agentRetryQ1 ["q1", "q2"] = some ["a2"] := by decide

/-- Claim C4: when the generation capability returns a result whose
newline split is the single empty entry, `decompose` returns exactly the
one-element list holding the original question. -/
theorem decompose_blank_is_original (q raw : String) (h : pySplitNl raw = [""]) :
    decompose q raw = [q] := by
  unfold decompose
  simp [h]

theorem decompose_blank_is_original_witness :
    pySplitNl "" = [""] ∧
    decompose "What about Bank A?" "" = ["What about Bank A?"] :=
  ⟨by decide, decompose_blank_is_original "What about Bank A?" "" (by decide)⟩

/-- Claim C5: for equal-length question and answer sequences, the
formatted context equals the per-pair blocks (a labeled question line then
a labeled answer line, numbered from 1 in input order) joined by blank
lines and stripped, and its last character is never whitespace. -/
theorem format_qa_pairs_structure (questions answers : List String)
    (h : questions.length = answers.length) :
    format_qa_pairs questions answers =
      pyStrip (joinSep "\x0a\x0a" (qaLines questions answers)) ∧
    ∀ c, (format_qa_pairs questions answers).data.getLast? = some c →
      isPyWs c = false :=
  ⟨format_qa_pairs_eq_joinSep questions answers,
   fun c hc => format_qa_pairs_no_trailing_ws questions answers c hc⟩

theorem format_qa_pairs_structure_witness :
    (["a", "b"] : List String).length = (["x", "y"] : List String).length ∧
    (format_qa_pairs ["a", "b"] ["x", "y"] =
      pyStrip (joinSep "\x0a\x0a" (qaLines ["a", "b"] ["x", "y"])) ∧
    ∀ c, (format_qa_pairs ["a", "b"] ["x", "y"]).data.getLast? = some c →
      isPyWs c = false) :=
  ⟨by decide, format_qa_pairs_structure ["a", "b"] ["x", "y"] (by decide)⟩

/-- Claim C6: the source claims the round-trip scenario with the two bank
sub-questions yields a context with two labeled pairs. Evaluating the code
as written: the fan-out loop keeps only the answer to the second bank
question, and the formatted context pairs the FIRST question with the
SECOND answer, as a single numbered pair. -/
theorem round_trip_scenario_single_pair :
    rag_results_code agentBanks ["Q1 about Bank A", "Q1 about Bank B"] =
      some ["ans: Q1 about Bank B"] ∧
    format_qa_pairs ["Q1 about Bank A", "Q1 about Bank B"] ["ans: Q1 about Bank B"] =
      "Question 1: Q1 about Bank A\x0aAnswer 1: ans: Q1 about Bank B" := by decide

/-- Claim C7 counterexample: on sequences of unequal length (two questions
and one answer) `format_qa_pairs` does not fail: it silently produces a
formatted context for the single zipped pair. -/
theorem format_qa_pairs_mismatch_no_error :
    format_qa_pairs ["a", "b"] ["x"] = "Question 1: a\x0aAnswer 1: x" := by decide

/-- Claim C7 as amended: `format_qa_pairs` is total and never raises; on
any two sequences it zips them down to the shorter length and formats
exactly `min` that many pairs. -/
theorem format_qa_pairs_truncates (questions answers : List String) :
    format_qa_pairs questions answers =
      pyStrip (joinSep "\x0a\x0a" (qaLines questions answers)) ∧
    (qaLines questions answers).length = min questions.length answers.length :=
  ⟨format_qa_pairs_eq_joinSep questions answers, qaLines_length questions answers⟩

/-- Claim C8: for every non-empty question, `decompose` returns at least
one sub-question, whatever raw text the generation capability returns. -/
theorem decompose_length_pos (q raw : String) (h : q ≠ "") :
    1 ≤ (decompose q raw).length := by
  by_cases hc : pySplitNl raw = [""]
  · simp [decompose, hc]
  · have hp := List.length_pos.mpr (pySplitNl_ne_nil raw)
    simpa [decompose, hc] using hp

theorem decompose_length_pos_witness :
    ("a" : String) ≠ "" ∧ 1 ≤ (decompose "a" "x\x0ay").length :=
  ⟨by decide, decompose_length_pos "a" "x\x0ay" (by decide)⟩

/-- Claim C9: for every non-empty raw capability output, `decompose`
returns exactly the newline-split lines, verbatim and in order, and
joining them back with a newline reconstructs the raw output. -/
theorem decompose_split_roundtrip (q raw : String) (h : raw ≠ "") :
    decompose q raw = pySplitNl raw ∧
    joinSep "\x0a" (decompose q raw) = raw := by
  have hne : pySplitNl raw ≠ [""] := fun hc => h ((pySplitNl_eq_single_empty raw).mp hc)
  have hd : decompose q raw = pySplitNl raw := by
    unfold decompose
    simp [hne]
  exact ⟨hd, by rw [hd, joinSep_pySplitNl]⟩

theorem decompose_split_roundtrip_witness :
    ("a\x0ab" : String) ≠ "" ∧
    (decompose "orig" "a\x0ab" = pySplitNl "a\x0ab" ∧
     joinSep "\x0a" (decompose "orig" "a\x0ab") = "a\x0ab") :=
  ⟨by decide, decompose_split_roundtrip "orig" "a\x0ab" (by decide)⟩

/-- Claim C10: with no sub-questions and no answers, the formatted context
is exactly the empty string. -/
theorem format_qa_pairs_empty : format_qa_pairs [] [] = "" := by decide
